import Mathlib

/-
Verification of the concurrency and consistency core of the greenlight
repository: the VersionedStore optimistic-concurrency-control protocol,
the RateGovernor token-bucket limiter, the ConflictReporter outcome
mapping, and the SnippetModel.Get query from cmd/web.

The VersionedStore, RateGovernor and ConflictReporter implementations
(internal/data/movies.go, cmd/api/middleware.go, cmd/api/errors.go) are
not present under src/; only their documentation (the README, including
the optimistic-locking SQL snippet and the error-response table) and
their configuration surface (cmd/api/main.go limiter flags) are. Those
components are therefore modelled from the spec, definition by
definition, as marked in the doc comments. SnippetModel.Get is embedded
directly from its source in src/cmd/web/main.go.
-/

namespace Greenlight

/-- Payload fields of a movie record, from the movies table schema in the
README (title, year, runtime, genres); id and version are kept separate
because the OCC protocol treats them specially. -/
structure Payload where
  title : String
  year : Int
  runtime : Int
  genres : List String
deriving DecidableEq, Repr

/-- Modelled from the spec: a Record of the VersionedStore, an entity with
fields key, version and payload. -/
structure Record where
  key : Nat
  version : Int
  payload : Payload
deriving DecidableEq, Repr

/-- The backing store: rows of the movies table, keyed by the id column. -/
abbrev Store : Type := List Record

/-- Row lookup by primary key, the SELECT ... WHERE id = key of the
backing store. -/
def lookup (s : Store) (k : Nat) : Option Record :=
  List.find? (fun r => r.key == k) s

/-- Conditional write-back: replace the row whose key matches, as the
UPDATE ... WHERE id = key statement of the backing store does. -/
def writeBack (s : Store) (k : Nat) (r : Record) : Store :=
  List.map (fun x => if x.key = k then r else x) s

/-- Modelled from the spec: the outcome type of VersionedStore.Update.
The spec taxonomy gives Conflict (version mismatch), NotFound (missing
key) and PreconditionViolation (non-positive expected version) next to
the successful result carrying the new record. -/
inductive UpdateResult where
  | ok (r : Record)
  | conflict
  | notFound
  | precondition
deriving DecidableEq, Repr

/-- Modelled from the spec: the outcome type of VersionedStore.Delete. -/
inductive DeleteResult where
  | ok
  | conflict
  | notFound
  | precondition
deriving DecidableEq, Repr

/-- Modelled from the spec: VersionedStore.Update(key, expectedVersion,
mutate). The implementation file internal/data/movies.go is not under
src/; the README documents only its SQL (UPDATE movies ... WHERE id = $2
AND version = $3 RETURNING version). Per the spec: a non-positive
expected version is rejected as a precondition violation; an absent key
fails with NotFound; a stored version different from expectedVersion
fails with Conflict; otherwise mutate is applied, the version is
incremented by exactly 1 (set by the store, never by the caller, as in
the SQL version = version + 1), the result is persisted and the new
record returned. -/
def update (s : Store) (k : Nat) (ev : Int) (mutate : Record → Record) :
    UpdateResult × Store :=
  if ev ≤ 0 then (.precondition, s)
  else
    match lookup s k with
    | none => (.notFound, s)
    | some r =>
      if r.version = ev then
        let r2 := { mutate r with key := r.key, version := r.version + 1 }
        (.ok r2, writeBack s k r2)
      else (.conflict, s)

/-- Modelled from the spec: VersionedStore.Delete(key, expectedVersion),
with the same version-check semantics as Update. -/
def delete (s : Store) (k : Nat) (ev : Int) : DeleteResult × Store :=
  if ev ≤ 0 then (.precondition, s)
  else
    match lookup s k with
    | none => (.notFound, s)
    | some r =>
      if r.version = ev then (.ok, List.filter (fun x => x.key != k) s)
      else (.conflict, s)

/-- Largest key in use, for fresh-key assignment (bigserial). -/
def maxKey (s : Store) : Nat :=
  List.foldr (fun r m => max r.key m) 0 s

/-- Modelled from the spec: VersionedStore.Insert(payload) assigns a
fresh key and version 1 (the movies table declares version integer NOT
NULL DEFAULT 1) and appends the row. -/
def insert (s : Store) (p : Payload) : Record × Store :=
  let r : Record := { key := maxKey s + 1, version := 1, payload := p }
  (r, s ++ [r])

/-- Modelled from the spec: the timeout-aware result of a cancellable
store operation. The spec requires a Timeout outcome distinct from
Conflict when the caller-supplied deadline expires. -/
inductive TimedResult (α : Type) where
  | timeout
  | done (r : α)
deriving DecidableEq, Repr

/-- Modelled from the spec: Update under a caller-supplied deadline
(context.WithTimeout in the Go code). The backing store round trip takes
latency seconds; if that exceeds the deadline the operation aborts,
reports Timeout, and leaves the store completely unmodified; otherwise
the plain update runs. -/
def updateWithDeadline (s : Store) (k : Nat) (ev : Int)
    (mutate : Record → Record) (latency deadline : ℚ) :
    TimedResult UpdateResult × Store :=
  if deadline < latency then (.timeout, s)
  else
    let res := update s k ev mutate
    (.done res.1, res.2)

/-- Modelled from the spec: Delete under a caller-supplied deadline. -/
def deleteWithDeadline (s : Store) (k : Nat) (ev : Int)
    (latency deadline : ℚ) : TimedResult DeleteResult × Store :=
  if deadline < latency then (.timeout, s)
  else
    let res := delete s k ev
    (.done res.1, res.2)

/-- Modelled from the spec: per-identity limiter state, the Bucket
tokens, capacity, refill rate, last refill instant and last-seen
instant. Real-valued quantities are modelled as rationals. -/
structure Bucket where
  tokens : ℚ
  capacity : Int
  refillRate : ℚ
  lastRefill : ℚ
  lastSeen : ℚ
deriving DecidableEq, Repr

/-- Modelled from the spec: the admission decision of RateGovernor. -/
inductive Decision where
  | Allowed
  | Denied
deriving DecidableEq, Repr

/-- Modelled from the spec: lazy continuous refill at time t, tokens
become min(capacity, tokens + elapsedSeconds * refillRate). -/
def refill (b : Bucket) (t : ℚ) : Bucket :=
  { b with
      tokens := min (b.capacity : ℚ) (b.tokens + (t - b.lastRefill) * b.refillRate),
      lastRefill := t }

/-- Modelled from the spec: a single admission check on one bucket at
time t: refill lazily, then consume one token if available; lastSeen is
updated on every admission check. -/
def admitBucket (b : Bucket) (t : ℚ) : Decision × Bucket :=
  let b2 := refill b t
  if 1 ≤ b2.tokens then (.Allowed, { b2 with tokens := b2.tokens - 1, lastSeen := t })
  else (.Denied, { b2 with lastSeen := t })

/-- Modelled from the spec: the RateGovernor, holding the startup
configuration (requests per second, burst, enabled flag from the
limiter flags in cmd/api/main.go) and the identity-to-bucket registry. -/
structure Governor where
  rps : ℚ
  burst : Int
  enabled : Bool
  registry : List (String × Bucket)
deriving DecidableEq, Repr

/-- Modelled from the spec: the bucket created on first sight of an
identity: capacity = burst, fill rate = configured rate, initial tokens
= full capacity. -/
def freshBucket (g : Governor) (t : ℚ) : Bucket :=
  { tokens := (g.burst : ℚ), capacity := g.burst, refillRate := g.rps,
    lastRefill := t, lastSeen := t }

/-- Modelled from the spec: RateGovernor.Admit(identity) at time t. When
the enabled flag is false it returns Allowed without touching any bucket
state and without growing the registry. Otherwise the bucket is created
lazily on first sight, then refilled and one token consumed if
available. -/
def Admit (g : Governor) (id : String) (t : ℚ) : Decision × Governor :=
  if g.enabled then
    match List.find? (fun p => p.1 == id) g.registry with
    | none =>
      let res := admitBucket (freshBucket g t) t
      (res.1, { g with registry := (id, res.2) :: g.registry })
    | some p =>
      let res := admitBucket p.2 t
      (res.1, { g with
        registry := List.map (fun q => if q.1 == id then (id, res.2) else q) g.registry })
  else (.Allowed, g)

/-- Run a list of admission calls (identity, time) in order, collecting
the decisions. -/
def runAdmits (g : Governor) : List (String × ℚ) → List Decision × Governor
  | [] => ([], g)
  | c :: cs =>
    let res := Admit g c.1 c.2
    let rest := runAdmits res.2 cs
    (res.1 :: rest.1, rest.2)

/-- Modelled from the spec: the outcome vocabulary consumed by
ConflictReporter.Translate. -/
inductive Outcome where
  | ok
  | conflict
  | notFound
  | denied
  | precondition
deriving DecidableEq, Repr

/-- A translated outcome: a response kind (the HTTP status of the
README error-response table) and a message. -/
structure Response where
  kind : Nat
  message : String
deriving DecidableEq, Repr

/-- Modelled from the spec: ConflictReporter.Translate, a pure mapping
from outcomes to responses. The kinds follow the README table
(editConflictResponse 409, notFoundResponse 404, rateLimitExceededResponse
429); the Conflict message carries the edit-conflict, please-retry
wording required by the spec, distinct from the NotFound message. -/
def translate : Outcome → Response
  | .ok => { kind := 200, message := "ok" }
  | .conflict => { kind := 409, message := "unable to update the record due to an edit conflict, please try again" }
  | .notFound => { kind := 404, message := "the requested resource could not be found" }
  | .denied => { kind := 429, message := "rate limit exceeded" }
  | .precondition => { kind := 400, message := "expected version must be a positive integer" }

/-- A snippet row, from the Snippet struct in src/cmd/web/main.go; the
created and expires timestamps are modelled as integers (seconds). -/
structure Snippet where
  id : Int
  title : String
  content : String
  created : Int
  expires : Int
deriving DecidableEq, Repr

/-- Result type of SnippetModel.Get: either a snippet or ErrNoRecord
(the only error of interest; driver failures are out of scope). -/
inductive GetResult where
  | found (s : Snippet)
  | errNoRecord
deriving DecidableEq, Repr

/-- SnippetModel.Get from src/cmd/web/main.go: runs SELECT id, title,
content, created, expires FROM snippets WHERE expires > UTC_TIMESTAMP()
AND id = ? and maps sql.ErrNoRows to ErrNoRecord. The database is a row
list and now is the current UTC timestamp. -/
def snippetGet (db : List Snippet) (now : Int) (id : Int) : GetResult :=
  match List.find? (fun s => (now < s.expires) && (s.id == id)) db with
  | some s => .found s
  | none => .errNoRecord

/-- Run a batch of Update calls on one key, all with the same expected
version, in the serialization order the per-key atomicity of the spec
guarantees for concurrent callers. -/
def runUpdates (s : Store) (k : Nat) (ev : Int) :
    List (Record → Record) → List UpdateResult × Store
  | [] => ([], s)
  | f :: fs =>
    let res := update s k ev f
    let rest := runUpdates res.2 k ev fs
    (res.1 :: rest.1, rest.2)

/-- Whether an Update outcome is the success case. -/
def isSuccess : UpdateResult → Bool
  | .ok _ => true
  | _ => false

/-- Run a chain of Update calls on one key where every call re-reads the
record and passes the current stored version as expectedVersion, the
re-fetch discipline under which every call succeeds. -/
def runChain (s : Store) (k : Nat) :
    List (Record → Record) → List UpdateResult × Store
  | [] => ([], s)
  | f :: fs =>
    let ev := match lookup s k with
      | some r => r.version
      | none => 0
    let res := update s k ev f
    let rest := runChain res.2 k fs
    (res.1 :: rest.1, rest.2)

/-- The versions returned by the successful calls of a result list. -/
def returnedVersions (rs : List UpdateResult) : List Int :=
  rs.filterMap fun res =>
    match res with
    | .ok r => some r.version
    | _ => none

/-- Run n consecutive admission checks against one bucket, all at time t. -/
def bucketRun (b : Bucket) (t : ℚ) : Nat → List Decision × Bucket
  | 0 => ([], b)
  | n+1 =>
    let res := admitBucket b t
    let rest := bucketRun res.2 t n
    (res.1 :: rest.1, rest.2)

/-- A governor as configured at startup, before any identity is seen. -/
def freshGov (rps : ℚ) (burst : Int) : Governor :=
  { rps := rps, burst := burst, enabled := true, registry := [] }

/-- A concrete payload for witnesses and counterexamples. -/
def demoPayload : Payload :=
  { title := "m", year := 2000, runtime := 100, genres := ["drama"] }

/-- A concrete record at version 1. -/
def rdemo1 : Record := { key := 1, version := 1, payload := demoPayload }

/-- A concrete record at version 3. -/
def rdemo3 : Record := { key := 7, version := 3, payload := demoPayload }

/-- A one-record store whose record is at version 1. -/
def demoStore1 : Store := [rdemo1]

/-- A one-record store whose record is at version 3. -/
def demoStore3 : Store := [rdemo3]

/-- Whether an Update outcome is the Conflict case. -/
def isConflict : UpdateResult → Bool
  | .conflict => true
  | _ => false

/-- Whether an admission decision is the Allowed case. -/
def isAllowed : Decision → Bool
  | .Allowed => true
  | .Denied => false

theorem lookup_key {s : Store} {k : Nat} {r : Record}
    (h : lookup s k = some r) : r.key = k := by
  unfold lookup at h
  have := List.find?_some h
  simpa using this

theorem lookup_writeBack (k : Nat) (r2 : Record) (hk : r2.key = k) :
    ∀ s : Store, (lookup s k).isSome →
      lookup (writeBack s k r2) k = some r2 := by
  intro s
  induction s with
  | nil => intro h; simp [lookup] at h
  | cons x xs ih =>
    intro h
    by_cases hx : x.key = k
    · show List.find? (fun r => r.key == k)
          ((if x.key = k then r2 else x) :: writeBack xs k r2) = some r2
      rw [if_pos hx, List.find?_cons_of_pos _ (by simp [hk])]
    · show List.find? (fun r => r.key == k)
          ((if x.key = k then r2 else x) :: writeBack xs k r2) = some r2
      rw [if_neg hx, List.find?_cons_of_neg _ (by simp [hx])]
      apply ih
      have hx2 : (x.key == k) = false := by simp [hx]
      simpa [lookup, List.find?_cons, hx2] using h

theorem update_notFound (s : Store) (k : Nat) (ev : Int)
    (mutate : Record → Record) (hev : 1 ≤ ev) (h : lookup s k = none) :
    update s k ev mutate = (.notFound, s) := by
  have h0 : ¬ ev ≤ 0 := by omega
  simp [update, h0, h]

theorem update_conflict (s : Store) (k : Nat) (ev : Int)
    (mutate : Record → Record) (r : Record) (hev : 1 ≤ ev)
    (h : lookup s k = some r) (hv : r.version ≠ ev) :
    update s k ev mutate = (.conflict, s) := by
  have h0 : ¬ ev ≤ 0 := by omega
  simp [update, h0, h, hv]

theorem update_ok (s : Store) (k : Nat) (ev : Int)
    (mutate : Record → Record) (r : Record) (hev : 1 ≤ ev)
    (h : lookup s k = some r) (hv : r.version = ev) :
    update s k ev mutate =
      (.ok { mutate r with key := r.key, version := r.version + 1 },
       writeBack s k { mutate r with key := r.key, version := r.version + 1 }) := by
  have h0 : ¬ ev ≤ 0 := by omega
  simp [update, h0, h, hv]

theorem runUpdates_conflict (k : Nat) (ev : Int) (r : Record) (hev : 1 ≤ ev)
    (hv : r.version ≠ ev) :
    ∀ (fs : List (Record → Record)) (s : Store), lookup s k = some r →
      runUpdates s k ev fs = (List.replicate fs.length .conflict, s) := by
  intro fs
  induction fs with
  | nil => intro s h; simp [runUpdates]
  | cons f fs ih =>
    intro s h
    have hc := update_conflict s k ev f r hev h hv
    simp [runUpdates, hc, ih s h, List.replicate_succ]

/-- C1, amended: for every positive expectedVersion, Update returns
NotFound when no record with the key exists, Conflict when the stored
version differs from expectedVersion, and otherwise applies the mutator,
increments the version by exactly 1, persists the result and returns the
new record; no outcome besides these three is possible. A non-positive
expectedVersion is instead rejected as a precondition violation, which
is what forces the positivity restriction. -/
theorem update_contract (s : Store) (k : Nat) (ev : Int)
    (mutate : Record → Record) (hev : 1 ≤ ev) :
    (lookup s k = none → update s k ev mutate = (.notFound, s)) ∧
    (∀ r, lookup s k = some r → r.version ≠ ev →
      update s k ev mutate = (.conflict, s)) ∧
    (∀ r, lookup s k = some r → r.version = ev →
      ∃ r2, update s k ev mutate = (.ok r2, writeBack s k r2) ∧
        r2.version = ev + 1 ∧ r2.payload = (mutate r).payload ∧
        lookup (update s k ev mutate).2 k = some r2) ∧
    ((update s k ev mutate).1 = .notFound ∨ (update s k ev mutate).1 = .conflict ∨
      ∃ r2, (update s k ev mutate).1 = .ok r2) := by
  refine ⟨fun h => update_notFound s k ev mutate hev h,
    fun r h hv => update_conflict s k ev mutate r hev h hv, ?_, ?_⟩
  · intro r h hv
    refine ⟨{ mutate r with key := r.key, version := r.version + 1 },
      update_ok s k ev mutate r hev h hv, ?_, rfl, ?_⟩
    · show r.version + 1 = ev + 1
      rw [hv]
    · rw [update_ok s k ev mutate r hev h hv]
      have hk0 : r.key = k := lookup_key h
      exact lookup_writeBack k
        { mutate r with key := r.key, version := r.version + 1 }
        hk0 s (by simp [h])
  · cases hl : lookup s k with
    | none =>
      left
      rw [update_notFound s k ev mutate hev hl]
    | some r =>
      by_cases hv : r.version = ev
      · right; right
        exact ⟨_, by rw [update_ok s k ev mutate r hev hl hv]⟩
      · right; left
        rw [update_conflict s k ev mutate r hev hl hv]

/-- C1 counterexample: at the one-record store whose record has key 1
and version 1, the call Update(1, 0, identity) meets a stored version
(1) different from the expected version (0), so the claim as stated
predicts Conflict and allows no outcome besides NotFound, Conflict and
success; the modelled code instead rejects the call as a precondition
violation and leaves the store unchanged. -/
theorem update_contract_cex :
    update demoStore1 1 0 (fun r => r) = (.precondition, demoStore1) ∧
    UpdateResult.precondition ≠ UpdateResult.conflict ∧
    UpdateResult.precondition ≠ UpdateResult.notFound ∧
    isSuccess UpdateResult.precondition = false := by
  refine ⟨rfl, by decide, by decide, rfl⟩

/-- C1 witness: the amended contract instantiated at the version-1 demo
store with key 1, expectedVersion 1 and the identity mutator. -/
theorem update_contract_witness :
    (1 : Int) ≤ 1 ∧
    ((lookup demoStore1 1 = none →
        update demoStore1 1 1 (fun r => r) = (.notFound, demoStore1)) ∧
     (∀ r, lookup demoStore1 1 = some r → r.version ≠ 1 →
        update demoStore1 1 1 (fun r => r) = (.conflict, demoStore1)) ∧
     (∀ r, lookup demoStore1 1 = some r → r.version = 1 →
        ∃ r2, update demoStore1 1 1 (fun r => r) = (.ok r2, writeBack demoStore1 1 r2) ∧
          r2.version = 1 + 1 ∧ r2.payload = ((fun r => r) r).payload ∧
          lookup (update demoStore1 1 1 (fun r => r)).2 1 = some r2) ∧
     ((update demoStore1 1 1 (fun r => r)).1 = .notFound ∨
      (update demoStore1 1 1 (fun r => r)).1 = .conflict ∨
      ∃ r2, (update demoStore1 1 1 (fun r => r)).1 = .ok r2)) :=
  ⟨by norm_num, update_contract demoStore1 1 1 (fun r => r) (by norm_num)⟩

/-- C2: under the per-key serialization that the atomic check-then-act
guarantees, a batch of N concurrent Update calls against one key, all
carrying the same expectedVersion equal to the current stored version,
has exactly one success, the first call, whose returned record carries
version expectedVersion + 1; the other N - 1 calls return Conflict. -/
theorem occ_exactly_one (s : Store) (k : Nat) (ev : Int) (r : Record)
    (f : Record → Record) (fs : List (Record → Record))
    (h : lookup s k = some r) (hv : r.version = ev) (hev : 1 ≤ ev) :
    (∃ r2, (runUpdates s k ev (f :: fs)).1.head? = some (.ok r2) ∧
      r2.version = ev + 1) ∧
    List.countP isSuccess (runUpdates s k ev (f :: fs)).1 = 1 ∧
    List.countP isConflict (runUpdates s k ev (f :: fs)).1 = fs.length := by
  have hupd := update_ok s k ev f r hev h hv
  have hk0 : r.key = k := lookup_key h
  have hlk : lookup (writeBack s k { f r with key := r.key, version := r.version + 1 }) k
      = some { f r with key := r.key, version := r.version + 1 } :=
    lookup_writeBack k { f r with key := r.key, version := r.version + 1 } hk0 s (by simp [h])
  have hv2 : ({ f r with key := r.key, version := r.version + 1 } : Record).version ≠ ev := by
    show r.version + 1 ≠ ev
    rw [hv]
    omega
  have hrest := runUpdates_conflict k ev
    { f r with key := r.key, version := r.version + 1 } hev hv2 fs
    (writeBack s k { f r with key := r.key, version := r.version + 1 }) hlk
  have hrun : runUpdates s k ev (f :: fs)
      = (.ok { f r with key := r.key, version := r.version + 1 }
          :: List.replicate fs.length .conflict,
         writeBack s k { f r with key := r.key, version := r.version + 1 }) := by
    simp [runUpdates, hupd, hrest]
  rw [hrun]
  refine ⟨⟨{ f r with key := r.key, version := r.version + 1 }, rfl, ?_⟩, ?_, ?_⟩
  · show r.version + 1 = ev + 1
    rw [hv]
  · simp [List.countP_cons, List.countP_replicate, isSuccess, isConflict]
  · simp [List.countP_cons, List.countP_replicate, isSuccess, isConflict]

/-- C2 witness: the record at version 3 and two concurrent callers both
passing expectedVersion 3; the first observes success at version 4, the
second observes Conflict. -/
theorem occ_exactly_one_witness :
    lookup demoStore3 7 = some rdemo3 ∧ rdemo3.version = 3 ∧ (1 : Int) ≤ 3 ∧
    ((∃ r2, (runUpdates demoStore3 7 3 ((fun r => r) :: [fun r => r])).1.head?
        = some (.ok r2) ∧ r2.version = 3 + 1) ∧
     List.countP isSuccess (runUpdates demoStore3 7 3 ((fun r => r) :: [fun r => r])).1 = 1 ∧
     List.countP isConflict (runUpdates demoStore3 7 3 ((fun r => r) :: [fun r => r])).1
        = [fun (r : Record) => r].length) :=
  ⟨rfl, rfl, by norm_num,
    occ_exactly_one demoStore3 7 3 rdemo3 (fun r => r) [fun r => r] rfl rfl (by norm_num)⟩

theorem mem_key_le_maxKey : ∀ {s : Store} {r : Record}, r ∈ s → r.key ≤ maxKey s := by
  intro s
  induction s with
  | nil => intro r h; cases h
  | cons x xs ih =>
    intro r h
    rcases List.mem_cons.1 h with h | h
    · subst h
      exact le_max_left _ _
    · exact le_trans (ih h) (le_max_right _ _)

theorem lookup_insert (s : Store) (p : Payload) :
    lookup (s ++ [{ key := maxKey s + 1, version := 1, payload := p }])
      (maxKey s + 1) = some { key := maxKey s + 1, version := 1, payload := p } := by
  have h1 : List.find? (fun r => r.key == maxKey s + 1) s = none := by
    apply List.find?_eq_none.2
    intro x hx
    have := mem_key_le_maxKey hx
    simp only [beq_iff_eq]
    omega
  unfold lookup
  rw [List.find?_append, h1]
  simp

theorem runChain_spec (k : Nat) :
    ∀ (fs : List (Record → Record)) (s : Store) (r : Record),
      lookup s k = some r → 1 ≤ r.version →
      returnedVersions (runChain s k fs).1
          = (List.range fs.length).map (fun i : Nat => r.version + (i : Int) + 1) ∧
      List.countP isSuccess (runChain s k fs).1 = fs.length := by
  intro fs
  induction fs with
  | nil =>
    intro s r h hv
    simp [runChain, returnedVersions]
  | cons f fs ih =>
    intro s r h hv
    have hupd := update_ok s k r.version f r hv h rfl
    have hk0 : r.key = k := lookup_key h
    have hlk : lookup (writeBack s k { f r with key := r.key, version := r.version + 1 }) k
        = some { f r with key := r.key, version := r.version + 1 } :=
      lookup_writeBack k { f r with key := r.key, version := r.version + 1 } hk0 s (by simp [h])
    have hv2 : 1 ≤ ({ f r with key := r.key, version := r.version + 1 } : Record).version := by
      show 1 ≤ r.version + 1
      omega
    obtain ⟨ihv, ihc⟩ := ih (writeBack s k { f r with key := r.key, version := r.version + 1 })
      { f r with key := r.key, version := r.version + 1 } hlk hv2
    have hrun : runChain s k (f :: fs)
        = (.ok { f r with key := r.key, version := r.version + 1 }
            :: (runChain (writeBack s k { f r with key := r.key, version := r.version + 1 }) k fs).1,
           (runChain (writeBack s k { f r with key := r.key, version := r.version + 1 }) k fs).2) := by
      simp [runChain, h, hupd]
    rw [hrun]
    constructor
    · show ({ f r with key := r.key, version := r.version + 1 } : Record).version
          :: returnedVersions (runChain (writeBack s k { f r with key := r.key, version := r.version + 1 }) k fs).1
          = (List.range (fs.length + 1)).map (fun i : Nat => r.version + (i : Int) + 1)
      rw [ihv, List.range_succ_eq_map, List.map_cons, List.map_map]
      show (r.version + 1)
          :: (List.range fs.length).map (fun i : Nat => r.version + 1 + (i : Int) + 1)
          = (r.version + ((0 : Nat) : Int) + 1)
          :: (List.range fs.length).map ((fun i : Nat => r.version + (i : Int) + 1) ∘ Nat.succ)
      congr 1
      · push_cast
        ring
      · apply List.map_congr_left
        intro a ha
        show r.version + 1 + (a : Int) + 1 = r.version + ((a + 1 : Nat) : Int) + 1
        push_cast
        ring
    · show List.countP isSuccess
          (.ok { f r with key := r.key, version := r.version + 1 }
            :: (runChain (writeBack s k { f r with key := r.key, version := r.version + 1 }) k fs).1)
          = fs.length + 1
      rw [List.countP_cons, ihc]
      simp [isSuccess]

/-- C3: Insert creates the record at version 1 and persists it; a
successful Update returns version exactly one above the stored version,
whatever the mutator writes into the version field, so a caller can
never set the version directly; and across a chain of successful Updates
on a freshly inserted key the k-th successful call returns version
k + 1. -/
theorem version_monotonic (s : Store) (p : Payload)
    (fs : List (Record → Record)) (sk : Store) (k : Nat) (ev : Int)
    (f : Record → Record) (r : Record)
    (hr : lookup sk k = some r) (hv : r.version = ev) (hev : 1 ≤ ev) :
    (insert s p).1.version = 1 ∧
    lookup (insert s p).2 (insert s p).1.key = some (insert s p).1 ∧
    (∃ r2, (update sk k ev f).1 = .ok r2 ∧ r2.version = r.version + 1) ∧
    returnedVersions (runChain (insert s p).2 (insert s p).1.key fs).1
      = (List.range fs.length).map (fun i : Nat => (i : Int) + 2) ∧
    List.countP isSuccess (runChain (insert s p).2 (insert s p).1.key fs).1
      = fs.length := by
  have h0 := runChain_spec (insert s p).1.key fs (insert s p).2 (insert s p).1
    (lookup_insert s p) (le_refl 1)
  refine ⟨rfl, lookup_insert s p, ?_, ?_, h0.2⟩
  · subst hv
    rw [update_ok sk k r.version f r hev hr rfl]
    exact ⟨_, rfl, rfl⟩
  · rw [h0.1]
    apply List.map_congr_left
    intro a ha
    show (1 : Int) + (a : Int) + 1 = (a : Int) + 2
    ring

/-- C3 witness: an insert into the empty store followed by a chain of
two successful updates, and a single successful update on the version-1
demo store. -/
theorem version_monotonic_witness :
    lookup demoStore1 1 = some rdemo1 ∧ rdemo1.version = 1 ∧ (1 : Int) ≤ 1 ∧
    ((insert [] demoPayload).1.version = 1 ∧
     lookup (insert [] demoPayload).2 (insert [] demoPayload).1.key
        = some (insert [] demoPayload).1 ∧
     (∃ r2, (update demoStore1 1 1 (fun r => r)).1 = .ok r2 ∧
        r2.version = rdemo1.version + 1) ∧
     returnedVersions
        (runChain (insert [] demoPayload).2 (insert [] demoPayload).1.key
          [fun r => r, fun r => r]).1
        = (List.range ([fun r => r, fun r => r] : List (Record → Record)).length).map
            (fun i : Nat => (i : Int) + 2) ∧
     List.countP isSuccess
        (runChain (insert [] demoPayload).2 (insert [] demoPayload).1.key
          [fun r => r, fun r => r]).1
        = ([fun r => r, fun r => r] : List (Record → Record)).length) :=
  ⟨rfl, rfl, by norm_num,
    version_monotonic [] demoPayload [fun r => r, fun r => r] demoStore1 1 1
      (fun r => r) rdemo1 rfl rfl (by norm_num)⟩

/-- C6: when the caller-supplied deadline expires (the backing-store
latency exceeds it), Update and Delete leave the store completely
unmodified and report Timeout, an outcome distinct from both the
Conflict and the success outcome, never silently succeeding or silently
failing. -/
theorem deadline_no_partial_write (s : Store) (k : Nat) (ev : Int)
    (mutate : Record → Record) (latency deadline : ℚ)
    (hexp : deadline < latency) :
    updateWithDeadline s k ev mutate latency deadline = (.timeout, s) ∧
    deleteWithDeadline s k ev latency deadline = (.timeout, s) ∧
    (TimedResult.timeout : TimedResult UpdateResult)
        ≠ .done UpdateResult.conflict ∧
    (TimedResult.timeout : TimedResult DeleteResult)
        ≠ .done DeleteResult.conflict ∧
    isSuccess UpdateResult.conflict = false := by
  refine ⟨?_, ?_, by decide, by decide, rfl⟩
  · simp [updateWithDeadline, hexp]
  · simp [deleteWithDeadline, hexp]

/-- C6 witness: a three-second round trip against a one-second
deadline. -/
theorem deadline_no_partial_write_witness :
    (1 : ℚ) < 3 ∧
    (updateWithDeadline demoStore1 1 1 (fun r => r) 3 1 = (.timeout, demoStore1) ∧
     deleteWithDeadline demoStore1 1 1 3 1 = (.timeout, demoStore1) ∧
     (TimedResult.timeout : TimedResult UpdateResult)
        ≠ .done UpdateResult.conflict ∧
     (TimedResult.timeout : TimedResult DeleteResult)
        ≠ .done DeleteResult.conflict ∧
     isSuccess UpdateResult.conflict = false) :=
  ⟨by norm_num, deadline_no_partial_write demoStore1 1 1 (fun r => r) 3 1 (by norm_num)⟩

/-- C7: a zero or negative expectedVersion is rejected by Update and
Delete as a PreconditionViolation, an outcome distinct from Conflict and
from NotFound, and the store is left unchanged. -/
theorem precondition_rejected (s : Store) (k : Nat) (ev : Int)
    (mutate : Record → Record) (hev : ev ≤ 0) :
    update s k ev mutate = (.precondition, s) ∧
    delete s k ev = (.precondition, s) ∧
    UpdateResult.precondition ≠ UpdateResult.conflict ∧
    UpdateResult.precondition ≠ UpdateResult.notFound ∧
    DeleteResult.precondition ≠ DeleteResult.conflict ∧
    DeleteResult.precondition ≠ DeleteResult.notFound := by
  refine ⟨by simp [update, hev], by simp [delete, hev],
    by decide, by decide, by decide, by decide⟩

/-- C7 witness: expectedVersion 0 and expectedVersion -2 on the demo
store; the instantiation uses 0. -/
theorem precondition_rejected_witness :
    (0 : Int) ≤ 0 ∧
    (update demoStore3 7 0 (fun r => r) = (.precondition, demoStore3) ∧
     delete demoStore3 7 0 = (.precondition, demoStore3) ∧
     UpdateResult.precondition ≠ UpdateResult.conflict ∧
     UpdateResult.precondition ≠ UpdateResult.notFound ∧
     DeleteResult.precondition ≠ DeleteResult.conflict ∧
     DeleteResult.precondition ≠ DeleteResult.notFound) :=
  ⟨by norm_num, precondition_rejected demoStore3 7 0 (fun r => r) (by norm_num)⟩

/-- C8: with the limiter disabled, every Admit call returns Allowed and
the governor, its registry included, is left untouched; a whole run of
calls returns only Allowed and never creates a bucket. -/
theorem disabled_no_registry_growth (g : Governor) (id : String) (t : ℚ)
    (calls : List (String × ℚ)) (h : g.enabled = false) :
    Admit g id t = (.Allowed, g) ∧
    runAdmits g calls = (List.replicate calls.length .Allowed, g) := by
  have h1 : ∀ (id2 : String) (t2 : ℚ), Admit g id2 t2 = (.Allowed, g) := by
    intro id2 t2
    simp [Admit, h]
  refine ⟨h1 id t, ?_⟩
  induction calls with
  | nil => simp [runAdmits]
  | cons c cs ih => simp [runAdmits, h1, ih, List.replicate_succ]

/-- C8 witness: a disabled governor with two queued calls. -/
theorem disabled_no_registry_growth_witness :
    ({ rps := 2, burst := 4, enabled := false, registry := [] } : Governor).enabled = false ∧
    (Admit { rps := 2, burst := 4, enabled := false, registry := [] } "A" 0
        = (.Allowed, { rps := 2, burst := 4, enabled := false, registry := [] }) ∧
     runAdmits { rps := 2, burst := 4, enabled := false, registry := [] } [("A", 0), ("B", 1)]
        = (List.replicate ([("A", (0:ℚ)), ("B", 1)] : List (String × ℚ)).length .Allowed,
           { rps := 2, burst := 4, enabled := false, registry := [] })) :=
  ⟨rfl, disabled_no_registry_growth
    { rps := 2, burst := 4, enabled := false, registry := [] } "A" 0 [("A", 0), ("B", 1)] rfl⟩

/-- C9: Translate is a pure total function of the outcome, so equal
outcomes yield equal responses and no state is involved; the Conflict
response differs from the NotFound response in both kind (409 vs 404)
and message, the Conflict message carrying the edit-conflict retry
wording. -/
theorem translate_deterministic (o1 o2 : Outcome) (h : o1 = o2) :
    translate o1 = translate o2 ∧
    (translate .conflict).message ≠ (translate .notFound).message ∧
    (translate .conflict).kind = 409 ∧ (translate .notFound).kind = 404 ∧
    (translate .conflict).kind ≠ (translate .notFound).kind := by
  refine ⟨by rw [h], by decide, rfl, rfl, by decide⟩

/-- C9 witness: instantiated at the Conflict outcome on both sides. -/
theorem translate_deterministic_witness :
    Outcome.conflict = Outcome.conflict ∧
    (translate Outcome.conflict = translate Outcome.conflict ∧
     (translate .conflict).message ≠ (translate .notFound).message ∧
     (translate .conflict).kind = 409 ∧ (translate .notFound).kind = 404 ∧
     (translate .conflict).kind ≠ (translate .notFound).kind) :=
  ⟨rfl, translate_deterministic Outcome.conflict Outcome.conflict rfl⟩

/-- C10: SnippetModel.Get returns ErrNoRecord both when no row with the
requested id exists and when every row with that id has expired
(expires not after now), because the query filters on
expires > UTC_TIMESTAMP(); an expired snippet is therefore
indistinguishable from a missing one at the interface. -/
theorem snippetGet_expired_hidden (db : List Snippet) (now : Int) (id : Int) :
    ((∀ s ∈ db, s.id ≠ id) → snippetGet db now id = .errNoRecord) ∧
    ((∀ s ∈ db, s.id = id → s.expires ≤ now) → snippetGet db now id = .errNoRecord) := by
  constructor
  · intro h
    unfold snippetGet
    rw [List.find?_eq_none.2 ?_]
    intro x hx
    have := h x hx
    simp [this]
  · intro h
    unfold snippetGet
    rw [List.find?_eq_none.2 ?_]
    intro x hx
    by_cases hid : x.id = id
    · have := h x hx hid
      simp [hid]
      omega
    · simp [hid]

/-- C10 witness: a database holding one snippet with id 1 that expired
at time 5; at now = 10 both a Get for the expired id 1 and a Get for the
absent id 2 return ErrNoRecord. -/
theorem snippetGet_expired_hidden_witness :
    snippetGet [{ id := 1, title := "t", content := "c", created := 0, expires := 5 }] 10 1
      = .errNoRecord ∧
    snippetGet [{ id := 1, title := "t", content := "c", created := 0, expires := 5 }] 10 2
      = .errNoRecord :=
  ⟨(snippetGet_expired_hidden
      [{ id := 1, title := "t", content := "c", created := 0, expires := 5 }] 10 1).2
      (by intro s hs hid; simp at hs; simp [hs]),
   (snippetGet_expired_hidden
      [{ id := 1, title := "t", content := "c", created := 0, expires := 5 }] 10 2).1
      (by intro s hs; simp at hs; simp [hs])⟩

/-- Well-formedness of a bucket at instant now: tokens within bounds,
nonnegative refill rate, last refill not in the future. -/
def BucketWF (b : Bucket) (now : ℚ) : Prop :=
  0 ≤ b.tokens ∧ b.tokens ≤ (b.capacity : ℚ) ∧ 0 ≤ b.refillRate ∧ b.lastRefill ≤ now

/-- Well-formedness of the governor at instant now: nonnegative
configuration and well-formed registry buckets. -/
def GovWF (g : Governor) (now : ℚ) : Prop :=
  0 ≤ g.rps ∧ 0 ≤ g.burst ∧ ∀ p ∈ g.registry, BucketWF p.2 now

theorem BucketWF_mono {b : Bucket} {now t : ℚ} (h : BucketWF b now)
    (ht : now ≤ t) : BucketWF b t :=
  ⟨h.1, h.2.1, h.2.2.1, le_trans h.2.2.2 ht⟩

theorem admitBucket_wf {b : Bucket} {now t : ℚ} (h : BucketWF b now)
    (ht : now ≤ t) : BucketWF (admitBucket b t).2 t := by
  obtain ⟨h0, h1, h2, h3⟩ := h
  have hcap : (0 : ℚ) ≤ (b.capacity : ℚ) := le_trans h0 h1
  have helap : (0 : ℚ) ≤ t - b.lastRefill := by linarith
  have hx : (0 : ℚ) ≤ b.tokens + (t - b.lastRefill) * b.refillRate :=
    add_nonneg h0 (mul_nonneg helap h2)
  have hmin0 : (0 : ℚ) ≤ min (b.capacity : ℚ) (b.tokens + (t - b.lastRefill) * b.refillRate) :=
    le_min hcap hx
  have hmin1 : min (b.capacity : ℚ) (b.tokens + (t - b.lastRefill) * b.refillRate)
      ≤ (b.capacity : ℚ) := min_le_left _ _
  simp only [admitBucket, refill]
  by_cases hc : (1 : ℚ) ≤ min (b.capacity : ℚ) (b.tokens + (t - b.lastRefill) * b.refillRate)
  · rw [if_pos hc]
    exact ⟨by dsimp only; linarith, by dsimp only; linarith, h2, le_refl t⟩
  · rw [if_neg hc]
    exact ⟨hmin0, hmin1, h2, le_refl t⟩

theorem admit_wf {g : Governor} {now t : ℚ} (h : GovWF g now) (ht : now ≤ t)
    (id : String) : GovWF (Admit g id t).2 t := by
  obtain ⟨hr, hb, hreg⟩ := h
  by_cases he : g.enabled
  · simp only [Admit, he, if_pos]
    cases hfind : List.find? (fun p => p.1 == id) g.registry with
    | none =>
      refine ⟨hr, hb, ?_⟩
      intro p hp
      rcases List.mem_cons.1 hp with hp | hp
      · subst hp
        exact admitBucket_wf ⟨Int.cast_nonneg.2 hb, le_refl _, hr, le_refl t⟩ (le_refl t)
      · exact BucketWF_mono (hreg p hp) ht
    | some q =>
      refine ⟨hr, hb, ?_⟩
      intro p hp
      rcases List.mem_map.1 hp with ⟨q2, hq2, hpq⟩
      by_cases hq : q2.1 == id
      · rw [if_pos hq] at hpq
        subst hpq
        exact admitBucket_wf (hreg q (List.mem_of_find?_eq_some hfind)) ht
      · rw [if_neg hq] at hpq
        subst hpq
        exact BucketWF_mono (hreg q2 hq2) ht
  · simp only [Admit, he, if_neg, Bool.false_eq_true, not_false_eq_true]
    exact ⟨hr, hb, fun p hp => BucketWF_mono (hreg p hp) ht⟩

theorem runAdmits_wf :
    ∀ (calls : List (String × ℚ)) (g : Governor) (now : ℚ),
      GovWF g now → List.Chain (· ≤ ·) now (List.map Prod.snd calls) →
      ∀ p ∈ (runAdmits g calls).2.registry,
        0 ≤ p.2.tokens ∧ p.2.tokens ≤ (p.2.capacity : ℚ) := by
  intro calls
  induction calls with
  | nil =>
    intro g now hg hchain p hp
    exact ⟨(hg.2.2 p hp).1, (hg.2.2 p hp).2.1⟩
  | cons c cs ih =>
    intro g now hg hchain p hp
    rw [List.map_cons, List.chain_cons] at hchain
    have hg2 : GovWF (Admit g c.1 c.2).2 c.2 := admit_wf hg hchain.1 c.1
    exact ih (Admit g c.1 c.2).2 c.2 hg2 hchain.2 p hp

theorem refill_same (b : Bucket) (t : ℚ) (hlast : b.lastRefill = t)
    (hle : b.tokens ≤ (b.capacity : ℚ)) :
    refill b t = { b with lastRefill := t } := by
  unfold refill
  rw [hlast]
  simp [min_eq_right hle]

theorem admitBucket_same_pos (b : Bucket) (t : ℚ) (hlast : b.lastRefill = t)
    (hle : b.tokens ≤ (b.capacity : ℚ)) (hc : 1 ≤ b.tokens) :
    admitBucket b t
      = (.Allowed, { b with tokens := b.tokens - 1, lastRefill := t, lastSeen := t }) := by
  unfold admitBucket
  rw [refill_same b t hlast hle]
  dsimp only
  rw [if_pos hc]

theorem admitBucket_same_neg (b : Bucket) (t : ℚ) (hlast : b.lastRefill = t)
    (hle : b.tokens ≤ (b.capacity : ℚ)) (hc : ¬ 1 ≤ b.tokens) :
    admitBucket b t = (.Denied, { b with lastRefill := t, lastSeen := t }) := by
  unfold admitBucket
  rw [refill_same b t hlast hle]
  dsimp only
  rw [if_neg hc]

theorem bucketRun_immediate (t : ℚ) :
    ∀ (n : Nat) (b : Bucket) (m : Nat), b.tokens = (m : ℚ) →
      (m : Int) ≤ b.capacity → b.lastRefill = t →
      (bucketRun b t n).1
          = List.replicate (min n m) .Allowed ++ List.replicate (n - min n m) .Denied ∧
      (bucketRun b t n).2.tokens = ((m - min n m : ℕ) : ℚ) ∧
      (bucketRun b t n).2.capacity = b.capacity ∧
      (bucketRun b t n).2.lastRefill = t := by
  intro n
  induction n with
  | zero =>
    intro b m hm hcap hlast
    refine ⟨by simp [bucketRun], ?_, rfl, hlast⟩
    simp [bucketRun, hm]
  | succ n ih =>
    intro b m hm hcap hlast
    have hle : b.tokens ≤ (b.capacity : ℚ) := by
      rw [hm]
      exact_mod_cast hcap
    cases m with
    | zero =>
      have hc : ¬ (1 : ℚ) ≤ b.tokens := by
        rw [hm]
        norm_num
      have hstep := admitBucket_same_neg b t hlast hle hc
      have hb2 : ({ b with lastRefill := t, lastSeen := t } : Bucket).tokens = ((0 : ℕ) : ℚ) := by
        dsimp only
        rw [hm]
      obtain ⟨ih1, ih2, ih3, ih4⟩ :=
        ih { b with lastRefill := t, lastSeen := t } 0 hb2 hcap rfl
      refine ⟨?_, ?_, ?_, ?_⟩
      · show (admitBucket b t).1 :: (bucketRun (admitBucket b t).2 t n).1 = _
        rw [hstep]
        dsimp only
        rw [ih1]
        simp [List.replicate_succ]
      · show (bucketRun (admitBucket b t).2 t n).2.tokens = _
        rw [hstep]
        dsimp only
        rw [ih2]
        congr 1
        omega
      · show (bucketRun (admitBucket b t).2 t n).2.capacity = b.capacity
        rw [hstep]
        exact ih3
      · show (bucketRun (admitBucket b t).2 t n).2.lastRefill = t
        rw [hstep]
        exact ih4
    | succ m =>
      have hc : (1 : ℚ) ≤ b.tokens := by
        rw [hm]
        exact_mod_cast Nat.succ_le_succ (Nat.zero_le m)
      have hstep := admitBucket_same_pos b t hlast hle hc
      have hb2 : ({ b with tokens := b.tokens - 1, lastRefill := t, lastSeen := t } : Bucket).tokens
          = ((m : ℕ) : ℚ) := by
        dsimp only
        rw [hm]
        push_cast
        ring
      have hcap2 : ((m : ℕ) : Int)
          ≤ ({ b with tokens := b.tokens - 1, lastRefill := t, lastSeen := t } : Bucket).capacity := by
        dsimp only
        omega
      obtain ⟨ih1, ih2, ih3, ih4⟩ :=
        ih { b with tokens := b.tokens - 1, lastRefill := t, lastSeen := t } m hb2 hcap2 rfl
      have hmin : min (n + 1) (m + 1) = min n m + 1 := by omega
      have hsub : (n + 1) - (min n m + 1) = n - min n m := by omega
      refine ⟨?_, ?_, ?_, ?_⟩
      · show (admitBucket b t).1 :: (bucketRun (admitBucket b t).2 t n).1 = _
        rw [hstep]
        dsimp only
        rw [ih1, hmin, hsub, List.replicate_succ, List.cons_append]
      · show (bucketRun (admitBucket b t).2 t n).2.tokens = _
        rw [hstep]
        dsimp only
        rw [ih2, hmin]
        congr 1
        omega
      · show (bucketRun (admitBucket b t).2 t n).2.capacity = b.capacity
        rw [hstep]
        exact ih3
      · show (bucketRun (admitBucket b t).2 t n).2.lastRefill = t
        rw [hstep]
        exact ih4

/-- A governor whose registry holds exactly one identity, as arises
after the first sight of that identity. -/
def singleGov (rps : ℚ) (burst : Int) (id : String) (b : Bucket) : Governor :=
  { rps := rps, burst := burst, enabled := true, registry := [(id, b)] }

theorem admit_single (rps : ℚ) (burst : Int) (id : String) (b : Bucket) (t : ℚ) :
    Admit (singleGov rps burst id b) id t
      = ((admitBucket b t).1, singleGov rps burst id (admitBucket b t).2) := by
  simp [Admit, singleGov]

theorem runAdmits_single (rps : ℚ) (burst : Int) (id : String) (t : ℚ) :
    ∀ (n : Nat) (b : Bucket),
      runAdmits (singleGov rps burst id b) (List.replicate n (id, t))
        = ((bucketRun b t n).1, singleGov rps burst id (bucketRun b t n).2) := by
  intro n
  induction n with
  | zero =>
    intro b
    simp [runAdmits, bucketRun]
  | succ n ih =>
    intro b
    rw [List.replicate_succ]
    show ((Admit (singleGov rps burst id b) id t).1
        :: (runAdmits (Admit (singleGov rps burst id b) id t).2
              (List.replicate n (id, t))).1,
      (runAdmits (Admit (singleGov rps burst id b) id t).2
          (List.replicate n (id, t))).2) = _
    rw [admit_single]
    dsimp only
    rw [ih (admitBucket b t).2]
    show ((admitBucket b t).1 :: (bucketRun (admitBucket b t).2 t n).1, _) = _
    rfl

theorem runAdmits_fresh (rps : ℚ) (burst : Int) (id : String) (t : ℚ) (n : Nat) :
    (runAdmits (freshGov rps burst) (List.replicate n (id, t))).1
      = (bucketRun (freshBucket (freshGov rps burst) t) t n).1 := by
  cases n with
  | zero => simp [runAdmits, bucketRun]
  | succ n =>
    rw [List.replicate_succ]
    show (Admit (freshGov rps burst) id t).1
        :: (runAdmits (Admit (freshGov rps burst) id t).2 (List.replicate n (id, t))).1
      = _
    have h1 : Admit (freshGov rps burst) id t
        = ((admitBucket (freshBucket (freshGov rps burst) t) t).1,
           singleGov rps burst id (admitBucket (freshBucket (freshGov rps burst) t) t).2) := by
      simp [Admit, freshGov, singleGov]
    rw [h1]
    dsimp only
    rw [runAdmits_single]
    show (admitBucket (freshBucket (freshGov rps burst) t) t).1
        :: (bucketRun (admitBucket (freshBucket (freshGov rps burst) t) t).2 t n).1
      = _
    rfl

/-- C4: across any run of Admit calls at nondecreasing instants from a
well-formed start, every bucket in the registry keeps
0 <= tokens <= capacity; and from first sight of an identity, a run of
k Admit calls with no elapsed time admits exactly min k capacity of
them, so at most capacity succeed, and the run of capacity + 1
immediate calls ends Denied. -/
theorem token_bounds (g : Governor) (now : ℚ) (calls : List (String × ℚ))
    (rps : ℚ) (burst : Int) (id : String) (t : ℚ) (k : Nat)
    (hg : GovWF g now) (hchain : List.Chain (· ≤ ·) now (List.map Prod.snd calls))
    (hrps : 0 ≤ rps) (hburst : 0 ≤ burst) :
    (∀ p ∈ (runAdmits g calls).2.registry,
        0 ≤ p.2.tokens ∧ p.2.tokens ≤ (p.2.capacity : ℚ)) ∧
    List.countP isAllowed
        (runAdmits (freshGov rps burst) (List.replicate k (id, t))).1
      = min k burst.toNat ∧
    (runAdmits (freshGov rps burst)
        (List.replicate (burst.toNat + 1) (id, t))).1.getLast? = some .Denied := by
  have hm : (freshBucket (freshGov rps burst) t).tokens = ((burst.toNat : ℕ) : ℚ) := by
    show (burst : ℚ) = ((burst.toNat : ℕ) : ℚ)
    exact_mod_cast (Int.toNat_of_nonneg hburst).symm
  have hcap : ((burst.toNat : ℕ) : Int) ≤ (freshBucket (freshGov rps burst) t).capacity := by
    show ((burst.toNat : ℕ) : Int) ≤ burst
    omega
  have hlast : (freshBucket (freshGov rps burst) t).lastRefill = t := rfl
  refine ⟨runAdmits_wf calls g now hg hchain, ?_, ?_⟩
  · rw [runAdmits_fresh rps burst id t k,
      (bucketRun_immediate t k (freshBucket (freshGov rps burst) t) burst.toNat hm hcap hlast).1]
    simp [List.countP_append, List.countP_replicate, isAllowed]
  · rw [runAdmits_fresh rps burst id t (burst.toNat + 1),
      (bucketRun_immediate t (burst.toNat + 1) (freshBucket (freshGov rps burst) t)
        burst.toNat hm hcap hlast).1]
    have hmin : min (burst.toNat + 1) burst.toNat = burst.toNat := by omega
    have hsub : burst.toNat + 1 - min (burst.toNat + 1) burst.toNat = 1 := by omega
    rw [hsub, hmin, List.replicate_one, List.getLast?_concat]

/-- C4 witness: a two-identity run at instants 0 and 1 from the fresh
rps-2 burst-4 governor, and five immediate calls against capacity 4. -/
theorem token_bounds_witness :
    GovWF (freshGov 2 4) 0 ∧
    List.Chain (· ≤ ·) 0 (List.map Prod.snd [("A", (0 : ℚ)), ("B", 1)]) ∧
    (0 : ℚ) ≤ 2 ∧ (0 : Int) ≤ 4 ∧
    ((∀ p ∈ (runAdmits (freshGov 2 4) [("A", (0 : ℚ)), ("B", 1)]).2.registry,
        0 ≤ p.2.tokens ∧ p.2.tokens ≤ (p.2.capacity : ℚ)) ∧
     List.countP isAllowed
        (runAdmits (freshGov 2 4) (List.replicate 5 ("A", (0 : ℚ)))).1
       = min 5 (4 : Int).toNat ∧
     (runAdmits (freshGov 2 4)
        (List.replicate ((4 : Int).toNat + 1) ("A", (0 : ℚ)))).1.getLast?
       = some .Denied) :=
  ⟨⟨by norm_num [freshGov], by norm_num [freshGov], by simp [freshGov]⟩,
   List.Chain.cons (by norm_num) (List.Chain.cons (by norm_num) List.Chain.nil),
   by norm_num, by norm_num,
   token_bounds (freshGov 2 4) 0 [("A", 0), ("B", 1)] 2 4 "A" 0 5
     ⟨by norm_num [freshGov], by norm_num [freshGov], by simp [freshGov]⟩
     (List.Chain.cons (by norm_num) (List.Chain.cons (by norm_num) List.Chain.nil))
     (by norm_num) (by norm_num)⟩

/-- C5: an Admit first updates the tokens to
min(capacity, tokens + elapsedSeconds * refillRate), computed lazily at
the call rather than by a timer; an empty bucket is fully refilled
after waiting exactly capacity / refillRate seconds, so the next Admit
is Allowed; and in the concrete capacity-4, rate-2-per-second scenario
four immediate calls are Allowed, a fifth immediate call is Denied, and
after a half-second wait the next call is Allowed again. -/
theorem refill_correctness (b : Bucket) (t : ℚ) (b2 : Bucket)
    (h0 : b2.tokens = 0) (hrate : 0 < b2.refillRate) (hcap : 1 ≤ b2.capacity) :
    (refill b t).tokens
        = min (b.capacity : ℚ) (b.tokens + (t - b.lastRefill) * b.refillRate) ∧
    (admitBucket b2 (b2.lastRefill + (b2.capacity : ℚ) / b2.refillRate)).1 = .Allowed ∧
    (runAdmits (freshGov 2 4)
        [("A", 0), ("A", 0), ("A", 0), ("A", 0), ("A", 0), ("A", 1/2)]).1
      = [.Allowed, .Allowed, .Allowed, .Allowed, .Denied, .Allowed] := by
  refine ⟨rfl, ?_, ?_⟩
  · have hr0 : b2.refillRate ≠ 0 := ne_of_gt hrate
    have hcq : (1 : ℚ) ≤ (b2.capacity : ℚ) := by exact_mod_cast hcap
    have hel : b2.lastRefill + (b2.capacity : ℚ) / b2.refillRate - b2.lastRefill
        = (b2.capacity : ℚ) / b2.refillRate := by ring
    have hcalc : b2.tokens
        + (b2.lastRefill + (b2.capacity : ℚ) / b2.refillRate - b2.lastRefill) * b2.refillRate
        = (b2.capacity : ℚ) := by
      rw [h0, zero_add, hel, div_mul_cancel₀ _ hr0]
    simp only [admitBucket, refill]
    rw [hcalc, min_self, if_pos hcq]
  · norm_num [runAdmits, Admit, admitBucket, refill, freshGov, freshBucket]

/-- C5 witness: the empty capacity-4 rate-2 bucket, which refills fully
after the two-second wait 4 / 2. -/
theorem refill_correctness_witness :
    ({ tokens := 0, capacity := 4, refillRate := 2, lastRefill := 0, lastSeen := 0 } : Bucket).tokens = 0 ∧
    (0 : ℚ) < ({ tokens := 0, capacity := 4, refillRate := 2, lastRefill := 0, lastSeen := 0 } : Bucket).refillRate ∧
    (1 : Int) ≤ ({ tokens := 0, capacity := 4, refillRate := 2, lastRefill := 0, lastSeen := 0 } : Bucket).capacity ∧
    ((refill { tokens := 0, capacity := 4, refillRate := 2, lastRefill := 0, lastSeen := 0 } 1).tokens
        = min ((({ tokens := 0, capacity := 4, refillRate := 2, lastRefill := 0, lastSeen := 0 } : Bucket).capacity : ℚ))
            (({ tokens := 0, capacity := 4, refillRate := 2, lastRefill := 0, lastSeen := 0 } : Bucket).tokens
              + ((1 : ℚ) - ({ tokens := 0, capacity := 4, refillRate := 2, lastRefill := 0, lastSeen := 0 } : Bucket).lastRefill)
                * ({ tokens := 0, capacity := 4, refillRate := 2, lastRefill := 0, lastSeen := 0 } : Bucket).refillRate) ∧
     (admitBucket { tokens := 0, capacity := 4, refillRate := 2, lastRefill := 0, lastSeen := 0 }
        (({ tokens := 0, capacity := 4, refillRate := 2, lastRefill := 0, lastSeen := 0 } : Bucket).lastRefill
          + (({ tokens := 0, capacity := 4, refillRate := 2, lastRefill := 0, lastSeen := 0 } : Bucket).capacity : ℚ)
            / ({ tokens := 0, capacity := 4, refillRate := 2, lastRefill := 0, lastSeen := 0 } : Bucket).refillRate)).1
        = .Allowed ∧
     (runAdmits (freshGov 2 4)
        [("A", 0), ("A", 0), ("A", 0), ("A", 0), ("A", 0), ("A", 1/2)]).1
      = [.Allowed, .Allowed, .Allowed, .Allowed, .Denied, .Allowed]) :=
  ⟨rfl, by norm_num, by norm_num,
   refill_correctness { tokens := 0, capacity := 4, refillRate := 2, lastRefill := 0, lastSeen := 0 } 1
     { tokens := 0, capacity := 4, refillRate := 2, lastRefill := 0, lastSeen := 0 }
     rfl (by norm_num) (by norm_num)⟩
